import Mathlib

/-!
Verification development for the clicon XML database (clicon_xml_db.c).

The C file implements an XML configuration datastore on top of a flat
key-value store: yang2xmlkeyfmt turns a YANG statement into a key format
with wildcard placeholders, get/xmldb_get materialize the KV pairs into an
XML tree guided by the YANG schema, xml_tree_prune_unmarked implements the
XPath mark-and-prune, xml_default/xml_sanity inject defaults and check the
schema binding, and put/xmldb_put/xmldb_put_xkey apply NETCONF-style edit
operations to the KV store.

The definitions below are a shallow embedding of those functions.  External
collaborators that the C file calls but that are not part of it (the cligen
string/cvec helpers, the clicon_xml tree primitives, the qdb key-value
store and the XPath evaluator) are modelled from their documented contracts
with the smallest semantics the C file relies on; each such definition says
so in its doc comment.
-/

/-- Keywords of YANG statements as used by the database code (Y_MODULE,
Y_CONTAINER, Y_LIST, Y_LEAF, Y_LEAF_LIST, Y_CHOICE, Y_CASE, Y_KEY, ...). -/
inductive Ykeyword where
  | ymodule
  | ysubmodule
  | ycontainer
  | ylist
  | yleaf
  | yleafList
  | ychoice
  | ycase
  | ykeystmt
  | yother
deriving DecidableEq, Repr

/-- YANG statement: keyword, argument, optional leaf default value
(ys_cv when the V_UNSET flag is clear), and sub-statements.  Parent
pointers of the C struct are represented by passing ancestor chains or the
resolving parent explicitly where the code needs them. -/
inductive YangStmt where
  | node (keyword : Ykeyword) (argument : String) (cvDefault : Option String)
         (substmts : List YangStmt)

def YangStmt.keyword : YangStmt → Ykeyword
  | .node k _ _ _ => k

def YangStmt.argument : YangStmt → String
  | .node _ a _ _ => a

def YangStmt.cvDefault : YangStmt → Option String
  | .node _ _ d _ => d

def YangStmt.substmts : YangStmt → List YangStmt
  | .node _ _ _ s => s

/-- A yang specification: the list of top-level (sub)module statements. -/
abbrev YangSpec := List YangStmt

/-- Modelled from the cligen contract: split a character list at a
separator character; n separators yield n+1 fields. -/
def splitCh (sep : Char) : List Char → List (List Char)
  | [] => [[]]
  | c :: rest =>
    match splitCh sep rest with
    | [] => [[]]
    | w :: ws => if c = sep then [] :: w :: ws else (c :: w) :: ws

/-- Modelled from the cligen contract of clicon_strsplit: split a string on
a separator character, keeping empty fields, so that a key such as /a/b
splits into three fields, the first one empty. -/
def strsplit (s : String) (sep : Char) : List String :=
  (splitCh sep s.data).map String.mk

/-- Modelled from the cligen contract of yang_arg2cvec with a blank
delimiter: the whitespace-separated names in a key argument. -/
def spacesSplit (s : String) : List String :=
  strsplit s ' '

/-- Modelled from the clicon_yang contract of yang_find with Y_KEY: the
first Y_KEY sub-statement of a list. -/
def yang_find_key (y : YangStmt) : Option YangStmt :=
  y.substmts.find? (fun s => s.keyword = Ykeyword.ykeystmt)

/-- True for the keywords that form data (schema syntax) nodes. -/
def isDataKeyword : Ykeyword → Bool
  | .ycontainer => true
  | .ylist => true
  | .yleaf => true
  | .yleafList => true
  | _ => false

/-- Modelled from the clicon_yang contract of yang_find_syntax: the first
data-node child of y whose argument equals the given name. -/
def yang_find_syntax (y : YangStmt) (name : String) : Option YangStmt :=
  y.substmts.find? (fun s => isDataKeyword s.keyword && s.argument = name)

/-- Modelled from the clicon_yang contract of yang_find_topnode: search the
modules of the specification for a top-level data node of that name. -/
def yang_find_topnode : YangSpec → String → Option YangStmt
  | [], _ => none
  | m :: rest, name =>
    match yang_find_syntax m name with
    | some y => some y
    | none => yang_find_topnode rest name

/-- Modelled from the clicon_yang contract of yang_key_match: whether the
name is one of the key-leaf names of the list statement. -/
def yang_key_match (y : YangStmt) (name : String) : Bool :=
  match yang_find_key y with
  | some ykey => (spacesSplit ykey.argument).contains name
  | none => false

/-- XML tree node (cxobj): an element with name, yang back-reference
(xml_spec), the XML_FLAG_MARK bit and its children, or a body (text)
node, or an attribute node. -/
inductive Cxobj where
  | elmnt (name : String) (spec : Option YangStmt) (mark : Bool)
          (children : List Cxobj)
  | bodyNode (value : String)
  | attrNode (name : String) (value : String)

/-- xml_name: body nodes are created with the constant name body. -/
def Cxobj.cxname : Cxobj → String
  | .elmnt n _ _ _ => n
  | .bodyNode _ => "body"
  | .attrNode n _ => n

/-- xml_value: only body and attribute nodes carry a value. -/
def Cxobj.cxvalue : Cxobj → Option String
  | .elmnt _ _ _ _ => none
  | .bodyNode v => some v
  | .attrNode _ v => some v

def Cxobj.children : Cxobj → List Cxobj
  | .elmnt _ _ _ cs => cs
  | _ => []

def Cxobj.isElem : Cxobj → Bool
  | .elmnt _ _ _ _ => true
  | _ => false

def Cxobj.markOf : Cxobj → Bool
  | .elmnt _ _ m _ => m
  | _ => false

def Cxobj.withChildren : Cxobj → List Cxobj → Cxobj
  | .elmnt n s m _, cs => .elmnt n s m cs
  | x, _ => x

/-- Modelled from the clicon_xml contract of xml_find: the first child of
any node type whose name matches; returns its position as well, which the
functional embedding needs in order to write the child back. -/
def xml_findIdx : List Cxobj → String → Option (Nat × Cxobj)
  | [], _ => none
  | c :: rest, name =>
    if c.cxname = name then some (0, c)
    else match xml_findIdx rest name with
         | some (j, x) => some (j + 1, x)
         | none => none

/-- Modelled from the clicon_xml contract of xml_find on a node. -/
def xml_find (x : Cxobj) (name : String) : Option Cxobj :=
  match xml_findIdx x.children name with
  | some (_, c) => some c
  | none => none

/-- Modelled from the clicon_xml contract of xml_body on a child list: the
value of the first body child. -/
def xml_bodyL : List Cxobj → Option String
  | [] => none
  | .bodyNode v :: _ => some v
  | _ :: rest => xml_bodyL rest

/-- Modelled from the clicon_xml contract of xml_body. -/
def xml_body (x : Cxobj) : Option String :=
  xml_bodyL x.children

/-- Modelled from the clicon_xml contract of xml_find_value: the value of
the first child with that name (an element child yields a null value). -/
def xml_find_value (x : Cxobj) (name : String) : Option String :=
  match xml_find x name with
  | some c => c.cxvalue
  | none => none

/-- The key-value database: pairs of key and optional value, kept in
insertion order.  Modelled from the clicon_qdb contract. -/
abbrev KV := List (String × Option String)

/-- Modelled from the clicon_qdb contract of db_set: overwrite the value in
place when the key exists, append otherwise. -/
def db_set (db : KV) (k : String) (v : Option String) : KV :=
  match db with
  | [] => [(k, v)]
  | (k', v') :: rest =>
    if k' = k then (k, v) :: rest else (k', v') :: db_set rest k v

/-- Modelled from the clicon_qdb contract of db_del. -/
def db_del (db : KV) (k : String) : KV :=
  db.filter (fun p => p.1 ≠ k)

/-- Modelled from the clicon_qdb contract of db_exists. -/
def db_exists (db : KV) (k : String) : Bool :=
  db.any (fun p => p.1 = k)

/-- Modelled from the clicon_qdb contract of db_regexp for the two regex
shapes the database code uses: the empty pattern, which matches every key,
and a caret-anchored literal-prefix pattern of the form used with
key plus dot-star, which matches exactly the keys extending the given
one. -/
def db_regexp_pfx (db : KV) (k : String) : KV :=
  db.filter (fun p => k.data.isPrefixOf p.1.data)

def kvKeys (db : KV) : List String :=
  db.map (fun p => p.1)

def db_lookup (db : KV) (k : String) : Option (Option String) :=
  match db.find? (fun p => p.1 = k) with
  | some p => some p.2
  | none => none

/-- Modelled from the clicon_xsl contract of xpath_first for the only
pattern create_keyvalues builds, name bracket keyname equals arg: the first
child element with that name whose child named keyname has that body. -/
def hasKeyval (c : Cxobj) (keyname arg : String) : Bool :=
  match xml_find c keyname with
  | some k => xml_body k = some arg
  | none => false

/-- Position-returning variant of the xpath_first model, searching a child
list for the first element named name with key child keyname of body arg. -/
def xpath_first_kv : List Cxobj → String → String → String → Option (Nat × Cxobj)
  | [], _, _, _ => none
  | c :: rest, name, keyname, arg =>
    if c.cxname = name ∧ hasKeyval c keyname arg then some (0, c)
    else match xpath_first_kv rest name keyname arg with
         | some (j, x) => some (j + 1, x)
         | none => none

/-- The element create_keyvalues builds when the xpath lookup fails: a new
list-entry element holding one key-leaf child with the key value as body. -/
def newKeyvalueElem (name : String) (y : YangStmt) (keyname : String)
    (ykey : YangStmt) (arg : String) : Cxobj :=
  Cxobj.elmnt name (some y) false
    [Cxobj.elmnt keyname (some ykey) false [Cxobj.bodyNode arg]]

/-- Body attachment at the end of get: if a value was stored with the key
and the final element has no body child yet, append a body node. -/
def attachBody (x : Cxobj) (val : Option String) : Cxobj :=
  match val with
  | some v =>
    if xml_body x = none then x.withChildren (x.children ++ [Cxobj.bodyNode v])
    else x
  | none => x

/-- The token loop of the static get function of clicon_xml_db.c (the
while over vec from index 2).  pend carries the key-leaf names still to be
consumed for a list node whose yang statement is y, mirroring the inner
cvec_each loop over create_keyvalues; when pend is empty the next token is
resolved with yang_find_syntax and dispatched on its yang keyword exactly
as the C switch does.  The current node x is rebuilt on the way out instead
of being mutated in place. -/
def getLoop (y : YangStmt) (pend : List String) (val : Option String) :
    List String → Cxobj → Except String Cxobj
  | toks, x =>
    match pend, toks with
    | kn :: kns, [] =>
      -- i >= nvec inside the key loop
      let _ := kn
      let _ := kns
      Except.error ("List " ++ y.argument ++ " without argument")
    | kn :: kns, arg :: toks2 =>
      match yang_find_key y with
      | none =>
        Except.error ("List statement " ++ y.argument ++ " has no key")
      | some ykey =>
        match xpath_first_kv x.children y.argument kn arg with
        | some (j, xc) => do
          let xc2 ← getLoop y kns val toks2 xc
          pure (x.withChildren (x.children.set j xc2))
        | none => do
          let xc2 ← getLoop y kns val toks2 (newKeyvalueElem y.argument y kn ykey arg)
          pure (x.withChildren (x.children ++ [xc2]))
    | [], [] => pure (attachBody x val)
    | [], name :: rest =>
      match yang_find_syntax y name with
      | none => Except.error ("No yang node found: " ++ name)
      | some y2 =>
        match y2.keyword with
        | .yleafList =>
          match rest with
          | [] => Except.error ("Leaf-list " ++ name ++ " without argument")
          | arg :: rest2 =>
            match xml_findIdx x.children name with
            | some (j, xc0) =>
              if (xml_find xc0 arg).isSome then do
                let xc2 ← getLoop y2 [] val rest2 xc0
                pure (x.withChildren (x.children.set j xc2))
              else do
                let xc2 ← getLoop y2 [] val rest2 (Cxobj.elmnt name (some y2) false [])
                pure (x.withChildren (x.children ++ [xc2]))
            | none => do
              let xc2 ← getLoop y2 [] val rest2 (Cxobj.elmnt name (some y2) false [])
              pure (x.withChildren (x.children ++ [xc2]))
        | .ylist =>
          match yang_find_key y2 with
          | none =>
            Except.error ("List statement " ++ name ++ " has no key")
          | some ykey => getLoop y2 (spacesSplit ykey.argument) val rest x
        | _ =>
          match xml_findIdx x.children name with
          | some (j, xc0) => do
            let xc2 ← getLoop y2 [] val rest xc0
            pure (x.withChildren (x.children.set j xc2))
          | none => do
            let xc2 ← getLoop y2 [] val rest (Cxobj.elmnt name (some y2) false [])
            pure (x.withChildren (x.children ++ [xc2]))

/-- The static get function of clicon_xml_db.c: integrate one key/value
pair from the database into the tree under construction, creating the
top-level child under the synthetic root and then running the token
loop.  Note the top-level symbol is not dispatched on its own keyword. -/
def get (ys : YangSpec) (xk : String) (val : Option String) (xt : Cxobj) :
    Except String Cxobj :=
  match xk.data with
  | '/' :: _ =>
    let vec := strsplit xk '/'
    if vec.length < 2 then Except.error ("Malformed key: " ++ xk)
    else
      match vec with
      | _ :: name :: toks =>
        match yang_find_topnode ys name with
        | none => Except.error ("No yang node found: " ++ name)
        | some y =>
          match xml_findIdx xt.children name with
          | some (j, xc0) => do
            let xc2 ← getLoop y [] val toks xc0
            pure (xt.withChildren (xt.children.set j xc2))
          | none => do
            let xc2 ← getLoop y [] val toks (Cxobj.elmnt name (some y) false [])
            pure (xt.withChildren (xt.children ++ [xc2]))
      | _ => Except.error ("Malformed key: " ++ xk)
  | _ => Except.error ("Invalid key: " ++ xk)

mutual
/-- One child of the xml_child_each loop of xml_tree_prune_unmarked: a
marked element child is kept whole (the C continues without descending),
an unmarked element child is kept in recursively pruned form when its
recursion reported a positive submark and is removed otherwise, and
non-element children are untouched by the CX_ELMNT iteration.  The second
component is this child's contribution to the callers mark counter. -/
def pruneOne : Cxobj → List Cxobj × Nat
  | .elmnt n s m cs =>
    if m then ([.elmnt n s m cs], 1)
    else
      let p := pruneKids cs
      if p.2 ≠ 0 then ([.elmnt n s m p.1], 1) else ([], 0)
  | .bodyNode v => ([.bodyNode v], 0)
  | .attrNode n v => ([.attrNode n v], 0)

/-- The child loop of xml_tree_prune_unmarked over a child list, returning
the surviving children and the mark count reported through upmark. -/
def pruneKids : List Cxobj → List Cxobj × Nat
  | [] => ([], 0)
  | c :: rest =>
    let a := pruneOne c
    let b := pruneKids rest
    (a.1 ++ b.1, a.2 + b.2)
end

/-- xml_tree_prune_unmarked of clicon_xml_db.c applied to the tree root
(the upmark out-parameter is passed as NULL there): the root survives and
its children are pruned recursively. -/
def xml_tree_prune_unmarked (xt : Cxobj) : Cxobj :=
  match xt with
  | .elmnt n s m cs => .elmnt n s m (pruneKids cs).1
  | x => x

/-- Modelled from the clicon_xml contract of xml_flag_set via a node handle
out of xpath_vec: a handle is a path of child indices from the root; the
element at that path gets its XML_FLAG_MARK bit set. -/
def xml_flag_set_at (x : Cxobj) : List Nat → Cxobj
  | [] =>
    match x with
    | .elmnt n s _ cs => .elmnt n s true cs
    | other => other
  | i :: rest =>
    match x with
    | .elmnt n s m cs =>
      match cs.get? i with
      | some c => .elmnt n s m (cs.set i (xml_flag_set_at c rest))
      | none => .elmnt n s m cs
    | other => other

/-- Set the mark flag on every node handle the XPath evaluator returned. -/
def markAll (x : Cxobj) : List (List Nat) → Cxobj
  | [] => x
  | p :: rest => markAll (xml_flag_set_at x p) rest

/-- The xml_default callback applied through xml_apply: for an element
whose yang statement is a container or list, walk the yang sub-statements
and create any leaf with a set default value that is absent from the
instance, attaching the default text as body.  Mirrors the C loop over
ys_stmt with its xml_find test. -/
def defaultKids (subs : List YangStmt) (cs : List Cxobj) : List Cxobj :=
  match subs with
  | [] => cs
  | y :: subs2 =>
    if y.keyword = Ykeyword.yleaf then
      match y.cvDefault with
      | some d =>
        if (xml_findIdx cs y.argument).isNone then
          defaultKids subs2
            (cs ++ [Cxobj.elmnt y.argument (some y) false [Cxobj.bodyNode d]])
        else defaultKids subs2 cs
      | none => defaultKids subs2 cs
    else defaultKids subs2 cs

mutual
/-- xml_apply(xt, CX_ELMNT, xml_default, NULL) on one node: the callback
adds missing default leaves to an element and the iteration recurses over
the element children.  The C callback dereferences the yang back-pointer
unconditionally, so a missing back-pointer is modelled as failure.  The C
iteration also visits the newly appended default leaves, but for them the
callback is a no-op (their keyword is leaf and their only child is a body),
so the embedding recurses over the pre-existing children and appends the
defaults afterwards; element names at this level are unchanged by the
recursion, so the xml_find absence test is unaffected. -/
def xml_defaultN (x : Cxobj) : Except String Cxobj :=
  match x with
  | .elmnt n s m cs =>
    match s with
    | none => .error ("No spec for xml node " ++ n)
    | some ys =>
      match xml_defaultL cs with
      | .error e => .error e
      | .ok cs2 =>
        if ys.keyword = Ykeyword.ycontainer ∨ ys.keyword = Ykeyword.ylist then
          .ok (.elmnt n s m (defaultKids ys.substmts cs2))
        else .ok (.elmnt n s m cs2)
  | other => .ok other

def xml_defaultL : List Cxobj → Except String (List Cxobj)
  | [] => .ok []
  | c :: rest =>
    match xml_defaultN c with
    | .error e => .error e
    | .ok c2 =>
      match xml_defaultL rest with
      | .error e => .error e
      | .ok rest2 => .ok (c2 :: rest2)
end

mutual
/-- xml_apply(xt, CX_ELMNT, xml_sanity, NULL) on one node: every element
must have a yang back-pointer whose argument equals the element name. -/
def xml_sanityN (x : Cxobj) : Except String Unit :=
  match x with
  | .elmnt n s _ cs =>
    match s with
    | none => .error ("No spec for xml node " ++ n)
    | some ys =>
      if n = ys.argument then xml_sanityL cs
      else .error ("xml node name " ++ n ++ " does not match yang spec arg "
                   ++ ys.argument)
  | _ => .ok ()

def xml_sanityL : List Cxobj → Except String Unit
  | [] => .ok ()
  | c :: rest =>
    match xml_sanityN c with
    | .error e => .error e
    | .ok _ => xml_sanityL rest
end

/-- The pair loop of xmldb_get: integrate each database pair in turn into
the tree under the synthetic root, aborting on the first failure. -/
def assemble (ys : YangSpec) : KV → Cxobj → Except String Cxobj
  | [], xt => .ok xt
  | (k, v) :: rest, xt =>
    match get ys k v xt with
    | .error e => .error e
    | .ok xt2 => assemble ys rest xt2

/-- xmldb_get of clicon_xml_db.c: read the whole database with an empty
regular expression, assemble the tree under a synthetic clicon root, then
if an xpath was given mark the handles the XPath evaluator returns for the
assembled tree and prune everything unmarked, then inject defaults and run
the sanity check.  The XPath evaluator itself is external to the file and
is passed as a function from the assembled tree to the vector of node
handles it matches.  Any failure frees the tree and nulls the output
pointer, modelled by the error result. -/
def pruneStage (xpathf : Option (Cxobj → List (List Nat))) (xt1 : Cxobj) :
    Cxobj :=
  match xpathf with
  | some f => xml_tree_prune_unmarked (markAll xt1 (f xt1))
  | none => xt1

def xmldb_get (db : KV) (xpathf : Option (Cxobj → List (List Nat)))
    (ys : YangSpec) : Except String Cxobj :=
  match assemble ys (db_regexp_pfx db "") (Cxobj.elmnt "clicon" none false []) with
  | .error e => .error e
  | .ok xt1 =>
    match xml_defaultL (pruneStage xpathf xt1).children with
    | .error e => .error e
    | .ok cs3 =>
      match xml_sanityL ((pruneStage xpathf xt1).withChildren cs3).children with
      | .error e => .error e
      | .ok _ => .ok ((pruneStage xpathf xt1).withChildren cs3)

/-- NETCONF-style operation_type of the put entry points. -/
inductive Op where
  | merge
  | replace
  | create
  | delete
  | remove
  | noneOp
deriving DecidableEq, Repr

/-- get_operation of clicon_xml_db.c: the operation attribute of an edit
node overrides the inherited operation; an unknown value is an error and a
child without the attribute (or whose matching child carries no value)
keeps the inherited operation. -/
def get_operation (xn : Cxobj) (op : Op) : Except String Op :=
  match xml_find_value xn "operation" with
  | none => .ok op
  | some s =>
    if s = "merge" then .ok Op.merge
    else if s = "replace" then .ok Op.replace
    else if s = "create" then .ok Op.create
    else if s = "delete" then .ok Op.delete
    else if s = "remove" then .ok Op.remove
    else .error ("Bad-attribute operation: " ++ s)

/-- Body text as the C cprintf renders it: printing a null string pointer
with a glibc-style percent-s yields the text (null). -/
def bodyText (b : Option String) : String :=
  match b with
  | some v => v
  | none => "(null)"

/-- append_listkeys of clicon_xml_db.c: append one /value segment per
key leaf of the list, taking the value from the body of the key-leaf
child of the edit node and failing when that child is missing. -/
def append_listkeys_go (xt : Cxobj) : List String → Except String String
  | [] => .ok ""
  | kn :: rest =>
    match xml_find xt kn with
    | none =>
      .error ("XML list node " ++ xt.cxname ++ " does not have key "
              ++ kn ++ " child")
    | some xkey =>
      match append_listkeys_go xt rest with
      | .error e => .error e
      | .ok s => .ok ("/" ++ bodyText (xml_body xkey) ++ s)

def append_listkeys (xt : Cxobj) (ys : YangStmt) : Except String String :=
  match yang_find_key ys with
  | none => .error ("List statement " ++ ys.argument ++ " has no key")
  | some ykey => append_listkeys_go xt (spacesSplit ykey.argument)

/-- The operation switch of the static put function: the database action
taken at one node for the accumulated key and the node body, returning the
error (if any) and the database afterwards.  OP_CREATE falls through to
the set of OP_MERGE and OP_REPLACE after its existence test, and OP_DELETE
falls through to the removal of OP_REMOVE after its existence test. -/
def putOpSwitch (op : Op) (db : KV) (xk : String) (bdy : Option String) :
    Option String × KV :=
  match op with
  | .create =>
    if db_exists db xk then
      (some ("OP_CREATE: " ++ xk ++ " already exists in database"), db)
    else (none, db_set db xk bdy)
  | .merge => (none, db_set db xk bdy)
  | .replace => (none, db_set db xk bdy)
  | .delete =>
    if db_exists db xk then (none, db_del db xk)
    else (some ("OP_DELETE: " ++ xk ++ " does not exists in database"), db)
  | .remove => (none, db_del db xk)
  | .noneOp => (none, db)

/-- The local key the put walk builds for one edit node: the parent key
plus a slash and the node name, extended for lists with one segment per
key-leaf body and for leaf-lists with the node body. -/
def putNodeKey (xt : Cxobj) (ys : YangStmt) (xk0 : String) :
    Except String String :=
  match ys.keyword with
  | .ylist =>
    match append_listkeys xt ys with
    | .error e => .error e
    | .ok tail => .ok (xk0 ++ "/" ++ xt.cxname ++ tail)
  | .yleafList => .ok (xk0 ++ "/" ++ xt.cxname ++ "/" ++ bodyText (xml_body xt))
  | _ => .ok (xk0 ++ "/" ++ xt.cxname)

mutual
/-- The static recursive put function of clicon_xml_db.c: resolve the
effective operation from the operation attribute, build the local key by
appending the node name and, for lists, the key-leaf bodies, or for
leaf-lists the node body, apply the operation switch, then recurse over
the element children with the local key as prefix, resolving each child
against the yang statement.  The database is threaded through and returned
together with the first error, since the C mutates the database in place
and aborts on error without rollback. -/
def put (db : KV) (xt : Cxobj) (ys : YangStmt) (op : Op) (xk0 : String) :
    Option String × KV :=
  match xt with
  | .elmnt n s m cs =>
    match get_operation (.elmnt n s m cs) op with
    | .error e => (some e, db)
    | .ok op2 =>
      match putNodeKey (.elmnt n s m cs) ys xk0 with
      | .error e => (some e, db)
      | .ok xk =>
        match putOpSwitch op2 db xk (xml_bodyL cs) with
        | (some e, db2) => (some e, db2)
        | (none, db2) => putKids db2 cs ys op2 xk
  | _ => (none, db)

/-- The element-child loop at the end of put, aborting at the first
error. -/
def putKids (db : KV) (cs : List Cxobj) (ys : YangStmt) (op : Op)
    (xk : String) : Option String × KV :=
  match cs with
  | [] => (none, db)
  | c :: rest =>
    match c with
    | .elmnt n s m cs2 =>
      match yang_find_syntax ys n with
      | none => (some ("No yang node found: " ++ n), db)
      | some y =>
        match put db (.elmnt n s m cs2) y op xk with
        | (some e, db2) => (some e, db2)
        | (none, db2) => putKids db2 rest ys op xk
    | _ => putKids db rest ys op xk
end

/-- The top-level element loop of xmldb_put: resolve each element child of
the dummy top node against the specification and run put on it with an
empty accumulated key. -/
def putTop (db : KV) (cs : List Cxobj) (ys : YangSpec) (op : Op) :
    Option String × KV :=
  match cs with
  | [] => (none, db)
  | c :: rest =>
    match c with
    | .elmnt n s m cs2 =>
      match yang_find_topnode ys n with
      | none => (some ("No yang node found: " ++ n), db)
      | some y =>
        match put db (.elmnt n s m cs2) y op "" with
        | (some e, db2) => (some e, db2)
        | (none, db2) => putTop db2 rest ys op
    | _ => putTop db rest ys op

/-- xmldb_put of clicon_xml_db.c: for OP_REPLACE the backing file is
unlinked and the database reinitialized to empty before the walk; then
every element child of the dummy top node is written with put. -/
def xmldb_put (db : KV) (xt : Cxobj) (ys : YangSpec) (op : Op) :
    Option String × KV :=
  let db0 := if op = Op.replace then ([] : KV) else db
  putTop db0 xt.children ys op

/-- The operations for which the token loop of xmldb_put_xkey writes
intermediate keys (OP_MERGE, OP_REPLACE and OP_CREATE share the test). -/
def opWrites (op : Op) : Bool :=
  op == Op.merge || op == Op.replace || op == Op.create

/-- State returned by the token loop of xmldb_put_xkey: first error,
accumulated key, last resolved yang statement, and the database with the
intermediate writes applied so far (the C mutates the database in place,
so the error cases still carry the database). -/
structure PxkRes where
  err : Option String
  ckey : String
  lastY : Option YangStmt
  db : KV

/-- The token loop of xmldb_put_xkey (the while over vec from index 1).
The first token resolves through yang_find_topnode, later ones through
yang_find_syntax on the previous statement, which is also the parent the
special delete rule for list key leaves inspects.  A leaf-list consumes the
following token as value without any write; a list consumes one key value
for its first key leaf only (the C loop breaks unconditionally) and, for
the writing operations, stores the key-leaf subkey and falls through to the
default arm which stores the accumulated key with a null value; all other
keywords only perform the default-arm write.  The list arm errors when its
key value is the last token, because the C increments past it before the
bound check. -/
def pxkLoop (ysp : YangSpec) (op : Op) :
    Option YangStmt → String → KV → List String → PxkRes
  | prev, ckey, db, [] => ⟨none, ckey, prev, db⟩
  | prev, ckey, db, name :: rest =>
    let yO :=
      match prev with
      | none => yang_find_topnode ysp name
      | some p => yang_find_syntax p name
    match yO with
    | none => ⟨some ("No yang node found: " ++ name), ckey, prev, db⟩
    | some y =>
      let skipB : Bool :=
        (op == Op.delete || op == Op.remove) &&
        y.keyword == Ykeyword.yleaf &&
        (match prev with
         | some p => p.keyword == Ykeyword.ylist && yang_key_match p y.argument
         | none => false)
      let ckey2 := if skipB then ckey else ckey ++ "/" ++ name
      match y.keyword with
      | .yleafList =>
        match rest with
        | [] => ⟨some ("Leaf-list " ++ name ++ " without argument"),
                 ckey2, some y, db⟩
        | v2 :: rest2 => pxkLoop ysp op (some y) (ckey2 ++ "/" ++ v2) db rest2
      | .ylist =>
        match yang_find_key y with
        | none => ⟨some ("List statement " ++ name ++ " has no key"),
                   ckey2, some y, db⟩
        | some ykey =>
          match spacesSplit ykey.argument with
          | [] =>
            let db1 := if opWrites op then db_set db ckey2 none else db
            pxkLoop ysp op (some y) ckey2 db1 rest
          | kn :: _ =>
            match rest with
            | [] => ⟨some ("List " ++ name ++ " without argument"),
                     ckey2, some y, db⟩
            | [_] => ⟨some ("List " ++ name ++ " without argument"),
                      ckey2, some y, db⟩
            | v2 :: v3 :: more =>
              let ckey3 := ckey2 ++ "/" ++ v2
              let db1 :=
                if opWrites op then db_set db (ckey3 ++ "/" ++ kn) (some v2)
                else db
              let db2 := if opWrites op then db_set db1 ckey3 none else db1
              pxkLoop ysp op (some y) ckey3 db2 (v3 :: more)
      | _ =>
        let db1 := if opWrites op then db_set db ckey2 none else db
        pxkLoop ysp op (some y) ckey2 db1 rest

/-- The final write of xmldb_put_xkey for the merging operations: leaves
and leaf-lists store the caller value, other nodes store a null value. -/
def putXkeyFinalSet (db : KV) (ckey val : String) (y : YangStmt) : KV :=
  if y.keyword = Ykeyword.yleaf ∨ y.keyword = Ykeyword.yleafList then
    db_set db ckey (some val)
  else db_set db ckey none

/-- The removal scan of xmldb_put_xkey: delete every pair whose key
matches the caret-anchored prefix regular expression of the final key. -/
def removeMatches (db : KV) (k : String) : KV :=
  ((db_regexp_pfx db k).map (fun p => p.1)).foldl db_del db

/-- xmldb_put_xkey of clicon_xml_db.c: validate and split the key, run the
token loop with its intermediate writes, then apply the final operation
switch on the accumulated key: OP_CREATE requires the key to be absent and
falls through to the merge write, OP_DELETE requires it to be present and
falls through to the OP_REMOVE regular-expression deletion scan. -/
def xmldb_put_xkey (db : KV) (xk : String) (val : String) (ysp : YangSpec)
    (op : Op) : Option String × KV :=
  match xk.data with
  | '/' :: _ =>
    let vec := strsplit xk '/'
    if vec.length < 2 then (some ("Malformed key: " ++ xk), db)
    else
      match vec with
      | [] => (some ("Malformed key: " ++ xk), db)
      | _ :: toks =>
        match pxkLoop ysp op none "" db toks with
        | ⟨some e, _, _, db2⟩ => (some e, db2)
        | ⟨none, _, none, db2⟩ => (some ("Malformed key: " ++ xk), db2)
        | ⟨none, ckey, some y, db2⟩ =>
          match op with
          | .create =>
            if db_exists db2 ckey then
              (some ("OP_CREATE: " ++ ckey ++ " already exists in database"),
               db2)
            else (none, putXkeyFinalSet db2 ckey val y)
          | .merge => (none, putXkeyFinalSet db2 ckey val y)
          | .replace => (none, putXkeyFinalSet db2 ckey val y)
          | .delete =>
            if db_exists db2 ckey then (none, removeMatches db2 ckey)
            else
              (some ("OP_DELETE: " ++ ckey ++ " does not exists in database"),
               db2)
          | .remove => (none, removeMatches db2 ckey)
          | .noneOp => (none, db2)
  | _ => (some ("Invalid key: " ++ xk), db)

/-- Concatenation of a list of strings (the cbuf of repeated cprintf). -/
def catList : List String → String
  | [] => ""
  | s :: rest => s ++ catList rest

/-- The per-statement rendering step of yang2xmlkeyfmt_1: a slash and the
argument unless the keyword is choice or case, then one percent-s wildcard
segment per key-leaf name for a list (failing like the C when the list has
no key statement) and exactly one wildcard segment for a leaf-list. -/
def xmlkeyfmtNode (ys : YangStmt) : Option String :=
  let base :=
    if ys.keyword = Ykeyword.ychoice ∨ ys.keyword = Ykeyword.ycase then ""
    else "/" ++ ys.argument
  match ys.keyword with
  | .ylist =>
    match yang_find_key ys with
    | none => none
    | some ykey =>
      some (base ++ catList ((spacesSplit ykey.argument).map (fun _ => "/%s")))
  | .yleafList => some (base ++ "/%s")
  | _ => some base

/-- yang2xmlkeyfmt_1 of clicon_xml_db.c: the recursion ascends to the
statement directly below the module or submodule and renders downward, so
it is a fold over the ancestor chain given top-down (module and submodule
excluded), each statement contributing its xmlkeyfmtNode rendering. -/
def yang2xmlkeyfmt_1 : List YangStmt → Option String
  | [] => some ""
  | y :: rest =>
    match xmlkeyfmtNode y with
    | none => none
    | some s =>
      match yang2xmlkeyfmt_1 rest with
      | none => none
      | some s2 => some (s ++ s2)

/-- Number of percent characters of a string, counting the wildcard
placeholders of a key format whose literal segments are percent-free. -/
def countPct (s : String) : Nat :=
  s.data.count '%'

/-- The placeholder budget the specification predicts for a path: one per
key-leaf name of each list statement plus one per leaf-list statement. -/
def expectedPh : List YangStmt → Nat
  | [] => 0
  | y :: rest =>
    (match y.keyword with
     | .ylist =>
       match yang_find_key y with
       | some ykey => (spacesSplit ykey.argument).length
       | none => 0
     | .yleafList => 1
     | _ => 0) + expectedPh rest

mutual
/-- Canonical serialization of a tree, the observable the seed scenarios of
the specification are phrased in: element tags around children, body text
in place, attributes not rendered. -/
def xml2str : Cxobj → String
  | .elmnt n _ _ cs => "<" ++ n ++ ">" ++ xml2strL cs ++ "</" ++ n ++ ">"
  | .bodyNode v => v
  | .attrNode _ _ => ""

def xml2strL : List Cxobj → String
  | [] => ""
  | c :: rest => xml2str c ++ xml2strL rest
end

mutual
/-- Whether a tree contains a node with the XML_FLAG_MARK bit set. -/
def containsMarkN : Cxobj → Bool
  | .elmnt _ _ m cs => m || anyMarkL cs
  | _ => false

def anyMarkL : List Cxobj → Bool
  | [] => false
  | c :: rest => containsMarkN c || anyMarkL rest
end

/-- The node at a child-index path, the handle representation used for the
XPath evaluator model. -/
def getAt (x : Cxobj) : List Nat → Option Cxobj
  | [] => some x
  | i :: rest =>
    match x with
    | .elmnt _ _ _ cs =>
      match cs.get? i with
      | some c => getAt c rest
      | none => none
    | _ => none

/-- Whether the path denotes an element node of the tree. -/
def isElemAt (x : Cxobj) (p : List Nat) : Bool :=
  match getAt x p with
  | some c => c.isElem
  | none => false

/-- The successful result of a get, if any (the C null output otherwise). -/
def getOk : Except String Cxobj → Option Cxobj
  | .ok t => some t
  | .error _ => none

/-- The error of a failed operation, if any. -/
def resErr : Except String Cxobj → Option String
  | .error e => some e
  | .ok _ => none

/-- Fixture builders for the concrete schemas of the seed scenarios. -/
def mkLeaf (n : String) : YangStmt := .node .yleaf n none []

def mkLeafD (n d : String) : YangStmt := .node .yleaf n (some d) []

def mkKeyArg (arg : String) : YangStmt := .node .ykeystmt arg none []

def mkCont (n : String) (subs : List YangStmt) : YangStmt :=
  .node .ycontainer n none subs

def mkList (n karg : String) (subs : List YangStmt) : YangStmt :=
  .node .ylist n none (mkKeyArg karg :: subs)

def mkLL (n : String) : YangStmt := .node .yleafList n none []

def mkMod (subs : List YangStmt) : YangStmt := .node .ymodule "m" none subs

/-- The synthetic root xmldb_get allocates. -/
def rootClicon : Cxobj := .elmnt "clicon" none false []

theorem countPct_append (a b : String) :
    countPct (a ++ b) = countPct a + countPct b := by
  simp [countPct, String.data_append, List.count_append]

theorem countPct_slash_arg (arg : String) (h : arg.data.count '%' = 0) :
    countPct ("/" ++ arg) = 0 := by
  simp [countPct, String.data_append]
  exact h

theorem countPct_ph_run (l : List String) :
    countPct (catList (l.map (fun _ => "/%s"))) = l.length := by
  induction l with
  | nil => decide
  | cons a rest ih =>
    simp only [List.map_cons, catList]
    rw [countPct_append, ih]
    have h1 : countPct "/%s" = 1 := by decide
    simp [h1]
    omega

/-- C9: the key format produced from a statement renders each ancestor and
the statement itself as a slash-argument segment, omitting choice and case
nodes, then appends one wildcard segment per name in a list key argument
and exactly one for a leaf-list, so when the rendering succeeds and the
arguments on the path are percent-free, the placeholder count of the
resulting format equals the number of list-key leaves plus the number of
leaf-list nodes on the path from the root. -/
theorem c9_keyfmt_placeholder_count (path : List YangStmt) (s : String)
    (hp : ∀ y ∈ path, y.argument.data.count '%' = 0)
    (he : yang2xmlkeyfmt_1 path = some s) :
    countPct s = expectedPh path := by
  induction path generalizing s with
  | nil =>
    simp only [yang2xmlkeyfmt_1, Option.some.injEq] at he
    subst he
    decide
  | cons y rest ih =>
    have hy : y.argument.data.count '%' = 0 := hp y (List.mem_cons_self y rest)
    have hrest : ∀ z ∈ rest, z.argument.data.count '%' = 0 :=
      fun z hz => hp z (List.mem_cons_of_mem y hz)
    obtain ⟨kw, arg, dflt, subs⟩ := y
    simp only [YangStmt.argument] at hy
    cases hn : xmlkeyfmtNode (.node kw arg dflt subs) with
    | none =>
      simp only [yang2xmlkeyfmt_1, hn] at he
      exact Option.noConfusion he
    | some s1 =>
      cases hr : yang2xmlkeyfmt_1 rest with
      | none =>
        simp only [yang2xmlkeyfmt_1, hn, hr] at he
        exact Option.noConfusion he
      | some s2 =>
        simp only [yang2xmlkeyfmt_1, hn, hr, Option.some.injEq] at he
        subst he
        rw [countPct_append, ih s2 hrest hr]
        cases kw with
        | ylist =>
          cases hk : yang_find_key (.node .ylist arg dflt subs) with
          | none =>
            simp only [xmlkeyfmtNode, YangStmt.keyword, hk] at hn
            exact Option.noConfusion hn
          | some ykey =>
            obtain ⟨k2, a2, d2, sub2⟩ := ykey
            simp only [xmlkeyfmtNode, YangStmt.keyword, YangStmt.argument,
              hk, Option.some.injEq] at hn
            subst hn
            simp only [expectedPh, YangStmt.keyword, YangStmt.argument, hk]
            rw [if_neg (by simp), countPct_append, countPct_slash_arg arg hy,
              countPct_ph_run]
            omega
        | yleafList =>
          simp only [xmlkeyfmtNode, YangStmt.keyword, YangStmt.argument,
            Option.some.injEq] at hn
          subst hn
          simp only [expectedPh, YangStmt.keyword]
          rw [if_neg (by simp), countPct_append, countPct_slash_arg arg hy]
          have h1 : countPct "/%s" = 1 := by decide
          omega
        | ychoice =>
          simp only [xmlkeyfmtNode, YangStmt.keyword, YangStmt.argument,
            Option.some.injEq] at hn
          rw [if_pos (by simp)] at hn
          subst hn
          simp only [expectedPh, YangStmt.keyword]
          have h0 : countPct "" = 0 := by decide
          omega
        | ycase =>
          simp only [xmlkeyfmtNode, YangStmt.keyword, YangStmt.argument,
            Option.some.injEq] at hn
          rw [if_pos (by simp)] at hn
          subst hn
          simp only [expectedPh, YangStmt.keyword]
          have h0 : countPct "" = 0 := by decide
          omega
        | ymodule =>
          simp only [xmlkeyfmtNode, YangStmt.keyword, YangStmt.argument,
            Option.some.injEq] at hn
          rw [if_neg (by simp)] at hn
          subst hn
          simp only [expectedPh, YangStmt.keyword]
          have h0 := countPct_slash_arg arg hy
          omega
        | ysubmodule =>
          simp only [xmlkeyfmtNode, YangStmt.keyword, YangStmt.argument,
            Option.some.injEq] at hn
          rw [if_neg (by simp)] at hn
          subst hn
          simp only [expectedPh, YangStmt.keyword]
          have h0 := countPct_slash_arg arg hy
          omega
        | ycontainer =>
          simp only [xmlkeyfmtNode, YangStmt.keyword, YangStmt.argument,
            Option.some.injEq] at hn
          rw [if_neg (by simp)] at hn
          subst hn
          simp only [expectedPh, YangStmt.keyword]
          have h0 := countPct_slash_arg arg hy
          omega
        | yleaf =>
          simp only [xmlkeyfmtNode, YangStmt.keyword, YangStmt.argument,
            Option.some.injEq] at hn
          rw [if_neg (by simp)] at hn
          subst hn
          simp only [expectedPh, YangStmt.keyword]
          have h0 := countPct_slash_arg arg hy
          omega
        | ykeystmt =>
          simp only [xmlkeyfmtNode, YangStmt.keyword, YangStmt.argument,
            Option.some.injEq] at hn
          rw [if_neg (by simp)] at hn
          subst hn
          simp only [expectedPh, YangStmt.keyword]
          have h0 := countPct_slash_arg arg hy
          omega
        | yother =>
          simp only [xmlkeyfmtNode, YangStmt.keyword, YangStmt.argument,
            Option.some.injEq] at hn
          rw [if_neg (by simp)] at hn
          subst hn
          simp only [expectedPh, YangStmt.keyword]
          have h0 := countPct_slash_arg arg hy
          omega

/-- Path fixture for the C9 witness: the header example container a with a
list b keyed by k containing leaf d. -/
def c9path : List YangStmt :=
  [mkCont "a" [], mkList "b" "k" [mkLeaf "k", mkLeaf "d"], mkLeaf "d"]

/-- Witness for C9: on the concrete path the format is /a/b/%s/d and its
single placeholder matches the single list-key leaf. -/
theorem c9_keyfmt_placeholder_count_witness :
    countPct "/a/b/%s/d" = expectedPh c9path :=
  c9_keyfmt_placeholder_count c9path "/a/b/%s/d" (by decide) (by decide)

theorem db_regexp_pfx_empty (db : KV) : db_regexp_pfx db "" = db :=
  List.filter_eq_self.mpr (fun p _ => by
    show "".data.isPrefixOf p.1.data = true
    cases hd : p.1.data <;> rfl)

theorem assemble_append (ys : YangSpec) (l1 l2 : KV) (x : Cxobj) :
    assemble ys (l1 ++ l2) x =
      match assemble ys l1 x with
      | .ok x2 => assemble ys l2 x2
      | .error e => .error e := by
  induction l1 generalizing x with
  | nil => simp [assemble]
  | cons p rest ih =>
    obtain ⟨k, v⟩ := p
    simp only [List.cons_append, assemble]
    cases get ys k v x with
    | error e => rfl
    | ok x2 => exact ih x2

/-- C10: if the integration of some database pair fails on the tree
assembled from the pairs before it, xmldb_get propagates that error and
returns no tree at all, so a caller never observes the partially built
tree (the C frees it and nulls the output pointer). -/
theorem c10_get_error_yields_no_tree (ys : YangSpec) (db1 : KV)
    (k : String) (v : Option String) (db2 : KV)
    (xf : Option (Cxobj → List (List Nat))) (e : String) (xt1 : Cxobj)
    (h1 : assemble ys db1 rootClicon = .ok xt1)
    (h2 : get ys k v xt1 = .error e) :
    xmldb_get (db1 ++ (k, v) :: db2) xf ys = .error e := by
  unfold xmldb_get
  rw [db_regexp_pfx_empty, assemble_append]
  rw [show rootClicon = Cxobj.elmnt "clicon" none false [] from rfl] at h1
  rw [h1]
  simp only [assemble, h2]

/-- Witness for C10: with a container schema, a first well-formed pair
assembles, the malformed second key fails, and xmldb_get returns the
error instead of the partial tree holding the first pair. -/
theorem c10_get_error_yields_no_tree_witness :
    xmldb_get [("/a", none), ("x", none), ("/a/b", some "7")] none
      [mkMod [mkCont "a" [mkLeaf "b"]]] = .error "Invalid key: x" :=
  c10_get_error_yields_no_tree [mkMod [mkCont "a" [mkLeaf "b"]]]
    [("/a", none)] "x" none [("/a/b", some "7")] none "Invalid key: x"
    (Cxobj.elmnt "clicon" none false
      [Cxobj.elmnt "a" (some (mkCont "a" [mkLeaf "b"])) false []])
    (by rfl) (by rfl)

/-- Schema fixture of the leaf-list seed scenario: a top-level leaf-list. -/
def yspecLL : YangSpec := [mkMod [mkLL "ll"]]

/-- Pair fixture of the leaf-list seed scenario. -/
def dbLL : KV := [("/ll/red", none), ("/ll/blue", none)]

/-- Schema fixture with the leaf-list nested under a container. -/
def yspecCll : YangSpec := [mkMod [mkCont "c" [mkLL "ll"]]]

/-- Pair fixture for the nested leaf-list, values absent as in the claim. -/
def dbCll : KV := [("/c/ll/red", none), ("/c/ll/blue", none)]

/-- C1: the claimed leaf-list assembly fails on the code.  With the schema
leaf-list ll and the pairs /ll/red and /ll/blue without values, xmldb_get
does not return two ll siblings with bodies red and blue; it errors with
UnknownNode on the first value token, because the top-level symbol branch
of get never dispatches on the keyword of the top node, so the leaf-list
value is resolved as a schema child name.  Even with the leaf-list nested
under a container, so that the leaf-list arm is reached, the pairs without
values produce two ll elements with no bodies at all, since get only
attaches a body from the stored value. -/
theorem c1_leaflist_get_fails :
    xmldb_get dbLL none yspecLL = .error "No yang node found: red" ∧
    (getOk (xmldb_get dbCll none yspecCll)).map xml2str =
      some "<clicon><c><ll></ll><ll></ll></c></clicon>" :=
  ⟨rfl, rfl⟩

/-- Schema fixture of the composite-key list seed scenario, top level. -/
def yspecXtop : YangSpec :=
  [mkMod [mkList "x" "k1 k2" [mkLeaf "k1", mkLeaf "k2", mkLeaf "v"]]]

/-- Pair fixture of the composite-key list seed scenario. -/
def dbXtop : KV :=
  [("/x/1/aa", none), ("/x/1/aa/k1", some "1"),
   ("/x/1/aa/k2", some "aa"), ("/x/1/aa/v", some "hello")]

/-- Schema fixture with the composite-key list nested under a container. -/
def yspecTX : YangSpec :=
  [mkMod [mkCont "t" [mkList "x" "k1 k2" [mkLeaf "k1", mkLeaf "k2",
    mkLeaf "v"]]]]

/-- Pair fixture for the nested composite-key list. -/
def dbTX : KV :=
  [("/t/x/1/aa", none), ("/t/x/1/aa/k1", some "1"),
   ("/t/x/1/aa/k2", some "aa"), ("/t/x/1/aa/v", some "hello")]

/-- C2: the claimed key-children invariant fails on the code.  On the
claim's own input, a top-level list x with keys k1 k2, xmldb_get errors
with UnknownNode on the first key value, because the top-level branch of
get never dispatches on the top node keyword.  Nesting the list under a
container so that the list arm runs shows the invariant still fails: the
key loop calls create_keyvalues once per key leaf with the list name, so
the second key is placed in a fresh inner element named x inside the entry
instead of becoming a sibling of k1, as the serialized assembler output
shows; and because create_keyvalues binds each key leaf to the Y_KEY
statement, whose argument is the whole key string, the full xmldb_get then
fails its sanity check on the nested input as well. -/
theorem c2_list_key_children_fails :
    xmldb_get dbXtop none yspecXtop = .error "No yang node found: 1" ∧
    (getOk (assemble yspecTX dbTX rootClicon)).map xml2str =
      some ("<clicon><t><x><k1>1</k1><x><k2>aa</k2><k1>1</k1>"
        ++ "<v>hello</v></x></x></t></clicon>") ∧
    xmldb_get dbTX none yspecTX =
      .error "xml node name k1 does not match yang spec arg k1 k2" :=
  ⟨rfl, rfl, rfl⟩

mutual
/-- Amended pruning semantics, following the corrected specification
wording: an element child survives iff its subtree contains a mark; a
child that is itself marked is kept whole, an unmarked surviving child is
pruned recursively, and non-element children are untouched. -/
def pruneSpecOne : Cxobj → List Cxobj
  | .elmnt n s m cs =>
    if m then [.elmnt n s m cs]
    else if anyMarkL cs then [.elmnt n s m (pruneSpecL cs)] else []
  | o => [o]

def pruneSpecL : List Cxobj → List Cxobj
  | [] => []
  | c :: rest => pruneSpecOne c ++ pruneSpecL rest
end

/-- Amended pruning at the root: the root always survives. -/
def pruneSpecN : Cxobj → Cxobj
  | .elmnt n s m cs => .elmnt n s m (pruneSpecL cs)
  | o => o

/-- Number of children whose subtree contains a mark, the value the C
reports through the upmark out-parameter. -/
def cntMk : List Cxobj → Nat
  | [] => 0
  | c :: rest => (if containsMarkN c then 1 else 0) + cntMk rest

theorem cntMk_pos (cs : List Cxobj) :
    cntMk cs ≠ 0 ↔ anyMarkL cs = true := by
  induction cs with
  | nil => simp [cntMk, anyMarkL]
  | cons c rest ih =>
    by_cases hc : containsMarkN c = true
    · simp [cntMk, anyMarkL, hc]
    · simp only [cntMk, anyMarkL, hc, if_neg, Bool.false_or]
      simp only [Bool.not_eq_true] at hc
      simp [hc, ih]

mutual
theorem pruneOne_spec : ∀ c : Cxobj,
    pruneOne c = (pruneSpecOne c, if containsMarkN c then 1 else 0)
  | .elmnt n s m cs => by
    by_cases hm : m = true
    · simp [pruneOne, pruneSpecOne, containsMarkN, hm]
    · simp only [Bool.not_eq_true] at hm
      have hk := pruneKids_spec cs
      by_cases ha : anyMarkL cs = true
      · have hne : cntMk cs ≠ 0 := (cntMk_pos cs).mpr ha
        simp [pruneOne, pruneSpecOne, containsMarkN, hm, ha, hk, hne]
      · simp only [Bool.not_eq_true] at ha
        have hz : cntMk cs = 0 := by
          by_contra hne
          rw [(cntMk_pos cs).mp hne] at ha
          exact Bool.noConfusion ha
        simp [pruneOne, pruneSpecOne, containsMarkN, hm, ha, hk, hz]
  | .bodyNode v => by simp [pruneOne, pruneSpecOne, containsMarkN]
  | .attrNode n v => by simp [pruneOne, pruneSpecOne, containsMarkN]

theorem pruneKids_spec : ∀ cs : List Cxobj,
    pruneKids cs = (pruneSpecL cs, cntMk cs)
  | [] => rfl
  | c :: rest => by
    have h1 := pruneOne_spec c
    have h2 := pruneKids_spec rest
    simp [pruneKids, pruneSpecL, cntMk, h1, h2]
end

/-- C4 amended: the pruning the code performs keeps an element child iff
its subtree contains a mark, keeps marked children whole together with all
their descendants, recursively prunes unmarked surviving children, leaves
non-element children alone and always keeps the root; formally the code
function equals the amended specification function on every tree.  The
claim's stated rule (survival iff marked or a surviving descendant, with
no other element nodes in the result) is refuted separately. -/
theorem c4_prune_keeps_marked_subtrees (x : Cxobj) :
    xml_tree_prune_unmarked x = pruneSpecN x := by
  cases x with
  | elmnt n s m cs =>
    simp [xml_tree_prune_unmarked, pruneSpecN, pruneKids_spec cs]
  | bodyNode v => rfl
  | attrNode n v => rfl

mutual
/-- The pruning rule exactly as the claim states it: a node survives iff
it is marked or one of its descendants survives, which unfolds to keeping
a node iff its subtree contains a mark, applied at every level including
below marked nodes. -/
def pruneClaimOne : Cxobj → List Cxobj
  | .elmnt n s m cs =>
    if m || anyMarkL cs then [.elmnt n s m (pruneClaimL cs)] else []
  | o => [o]

def pruneClaimL : List Cxobj → List Cxobj
  | [] => []
  | c :: rest => pruneClaimOne c ++ pruneClaimL rest
end

/-- The claim's rule applied below a surviving root. -/
def pruneClaimN : Cxobj → Cxobj
  | .elmnt n s m cs => .elmnt n s m (pruneClaimL cs)
  | o => o

/-- Tree fixture refuting C4 as stated: a root with one marked child a
that has an unmarked childless element child b. -/
def c4tree : Cxobj :=
  .elmnt "r" none false
    [.elmnt "a" none true [.elmnt "b" none false []]]

/-- C4 counterexample: on c4tree the code keeps b (the whole subtree of
the marked node a survives, so the pruned tree is unchanged and b is still
at path 0 0), while under the claim's stated rule b is removed, since b is
neither marked nor has any descendant; so the claimed characterization of
pruning, and with it the assertion that no element nodes outside the
marked set and its ancestors appear in the result, is false. -/
theorem c4_prune_counterexample :
    xml_tree_prune_unmarked c4tree = c4tree ∧
    getAt (xml_tree_prune_unmarked c4tree) [0, 0] =
      some (.elmnt "b" none false []) ∧
    pruneClaimN c4tree = .elmnt "r" none false [.elmnt "a" none true []] ∧
    getAt (pruneClaimN c4tree) [0, 0] = none :=
  ⟨rfl, rfl, rfl, rfl⟩

theorem mem_kvKeys (db : KV) (k : String) :
    k ∈ kvKeys db ↔ ∃ v, (k, v) ∈ db := by
  simp only [kvKeys, List.mem_map]
  constructor
  · rintro ⟨⟨k2, v⟩, hm, hk⟩
    simp only at hk
    subst hk
    exact ⟨v, hm⟩
  · rintro ⟨v, hm⟩
    exact ⟨(k, v), hm, rfl⟩

theorem kvKeys_db_del_mem (db : KV) (k k2 : String) :
    k ∈ kvKeys (db_del db k2) ↔ k ∈ kvKeys db ∧ k ≠ k2 := by
  simp only [kvKeys, db_del, List.mem_map, List.mem_filter]
  constructor
  · rintro ⟨p, ⟨hp, hne⟩, hk⟩
    subst hk
    exact ⟨⟨p, hp, rfl⟩, by simpa using hne⟩
  · rintro ⟨⟨p, hp, hk⟩, hne⟩
    subst hk
    exact ⟨p, ⟨hp, by simpa using hne⟩, rfl⟩

theorem foldl_db_del_mem (ks : List String) (db : KV) (k : String) :
    k ∈ kvKeys (ks.foldl db_del db) ↔ k ∈ kvKeys db ∧ k ∉ ks := by
  induction ks generalizing db with
  | nil => simp
  | cons k2 rest ih =>
    simp only [List.foldl_cons, ih, kvKeys_db_del_mem, List.mem_cons]
    constructor
    · rintro ⟨⟨hm, hne⟩, hnr⟩
      exact ⟨hm, by rintro (h | h) <;> [exact hne h; exact hnr h]⟩
    · rintro ⟨hm, hn⟩
      exact ⟨⟨hm, fun h => hn (Or.inl h)⟩, fun h => hn (Or.inr h)⟩

theorem removeMatches_mem (db : KV) (pfxk k : String) :
    k ∈ kvKeys (removeMatches db pfxk) ↔
      k ∈ kvKeys db ∧ ¬ (pfxk.data.isPrefixOf k.data = true) := by
  rw [removeMatches, foldl_db_del_mem]
  have hm : k ∈ (db_regexp_pfx db pfxk).map (fun p => p.1) ↔
      k ∈ kvKeys db ∧ pfxk.data.isPrefixOf k.data = true := by
    simp only [db_regexp_pfx, List.mem_map, List.mem_filter]
    constructor
    · rintro ⟨p, ⟨hp, hpre⟩, hk⟩
      subst hk
      exact ⟨(mem_kvKeys db p.1).mpr ⟨p.2, hp⟩, hpre⟩
    · rintro ⟨hk, hpre⟩
      obtain ⟨v, hv⟩ := (mem_kvKeys db k).mp hk
      exact ⟨(k, v), ⟨hv, hpre⟩, rfl⟩
  rw [hm]
  constructor
  · rintro ⟨hk, hn⟩
    exact ⟨hk, fun hpre => hn ⟨hk, hpre⟩⟩
  · rintro ⟨hk, hn⟩
    exact ⟨hk, fun hb => hn hb.2⟩

/-- Schema fixture container a holding leaf b. -/
def yspecAB : YangSpec := [mkMod [mkCont "a" [mkLeaf "b"]]]

/-- Edit tree fixture: a dummy top holding one childless element a with no
operation attribute. -/
def editA : Cxobj := .elmnt "top" none false [.elmnt "a" none false []]

/-- C3 counterexample: on a database holding /a and /a/b, the edit-tree
walk of put with operation remove on element a deletes only the exact key
/a; the key /a/b matches the caret-anchored prefix regular expression of
the accumulated key yet survives, so the claim that the walk deletes every
matching key is false. -/
theorem c3_remove_counterexample :
    xmldb_put [("/a", none), ("/a/b", some "1")] editA yspecAB .remove =
      (none, [("/a/b", some "1")]) ∧
    "/a".data.isPrefixOf "/a/b".data = true :=
  ⟨rfl, rfl⟩

/-- C3 amended: during the edit-tree walk of put, delete and remove delete
only the exact accumulated key of each visited node (delete additionally
requiring that the key exist, and leaving the store unchanged when it does
not); the regular-expression scan that deletes every key extending the
accumulated key is performed only by xmldb_put_xkey, whose remove
operation removes exactly the keys with that prefix. -/
theorem c3_walk_removes_exact_key :
    (∀ db : KV, xmldb_put db editA yspecAB .remove = (none, db_del db "/a")) ∧
    (∀ db : KV, xmldb_put db editA yspecAB .delete =
      if db_exists db "/a" then (none, db_del db "/a")
      else (some "OP_DELETE: /a does not exists in database", db)) ∧
    (∀ db : KV, (xmldb_put_xkey db "/a/b" "v" yspecAB .remove).1 = none) ∧
    (∀ (db : KV) (k : String),
      k ∈ kvKeys (xmldb_put_xkey db "/a/b" "v" yspecAB .remove).2 ↔
        k ∈ kvKeys db ∧ ¬ ("/a/b".data.isPrefixOf k.data = true)) := by
  refine ⟨fun db => rfl, fun db => ?_, fun db => rfl, fun db k => ?_⟩
  · by_cases h : db_exists db "/a"
    · simp [xmldb_put, putTop, put, putNodeKey, putKids, putOpSwitch, get_operation,
        xml_find_value, xml_find, xml_findIdx, Cxobj.children, Cxobj.cxname,
        editA, yspecAB, mkMod, mkCont, mkLeaf, yang_find_topnode,
        yang_find_syntax, isDataKeyword, YangStmt.keyword, YangStmt.argument,
        YangStmt.substmts, List.find?, xml_bodyL, h]
    · simp [xmldb_put, putTop, put, putNodeKey, putKids, putOpSwitch, get_operation,
        xml_find_value, xml_find, xml_findIdx, Cxobj.children, Cxobj.cxname,
        editA, yspecAB, mkMod, mkCont, mkLeaf, yang_find_topnode,
        yang_find_syntax, isDataKeyword, YangStmt.keyword, YangStmt.argument,
        YangStmt.substmts, List.find?, xml_bodyL, h]
  · exact removeMatches_mem db "/a/b" k

/-- Database fixture of the create-conflict seed scenario. -/
def dbC7 : KV := [("/a", none), ("/a/b", some "7")]

/-- C7 counterexample: put_key of value 8 at /a/b with operation create on
a database holding value 7 under /a/b does raise the create-exists error,
but it does not leave the store unchanged at the call site: the token loop
of xmldb_put_xkey writes every accumulated key with a null value for the
create operation before the final existence test runs, so the prior value
7 has already been overwritten with a null value when the error is
raised. -/
theorem c7_create_clobbers_counterexample :
    xmldb_put_xkey dbC7 "/a/b" "8" yspecAB .create =
      (some "OP_CREATE: /a/b already exists in database",
       [("/a", none), ("/a/b", none)]) ∧
    db_lookup (xmldb_put_xkey dbC7 "/a/b" "8" yspecAB .create).2 "/a/b" =
      some none :=
  ⟨rfl, rfl⟩

/-- C7 amended: create on an existing key fails with the create-exists
error and delete on a missing key fails with the delete-missing error; the
edit-tree walk of put leaves the store unchanged at a failing create call
site, and xmldb_put_xkey leaves it unchanged at a failing delete, but a
failing create through xmldb_put_xkey has already overwritten the
intermediate and final keys with null values (see the counterexample). -/
theorem c7_preconditions :
    (∀ db : KV, xmldb_put db editA yspecAB .create =
      if db_exists db "/a" then
        (some "OP_CREATE: /a already exists in database", db)
      else (none, db_set db "/a" none)) ∧
    (∀ db : KV, xmldb_put_xkey db "/a/b" "v" yspecAB .delete =
      if db_exists db "/a/b" then (none, removeMatches db "/a/b")
      else (some "OP_DELETE: /a/b does not exists in database", db)) := by
  constructor
  · intro db
    by_cases h : db_exists db "/a"
    · simp [xmldb_put, putTop, put, putNodeKey, putKids, putOpSwitch, get_operation,
        xml_find_value, xml_find, xml_findIdx, Cxobj.children, Cxobj.cxname,
        editA, yspecAB, mkMod, mkCont, mkLeaf, yang_find_topnode,
        yang_find_syntax, isDataKeyword, YangStmt.keyword, YangStmt.argument,
        YangStmt.substmts, List.find?, xml_bodyL, h]
    · simp [xmldb_put, putTop, put, putNodeKey, putKids, putOpSwitch, get_operation,
        xml_find_value, xml_find, xml_findIdx, Cxobj.children, Cxobj.cxname,
        editA, yspecAB, mkMod, mkCont, mkLeaf, yang_find_topnode,
        yang_find_syntax, isDataKeyword, YangStmt.keyword, YangStmt.argument,
        YangStmt.substmts, List.find?, xml_bodyL, h]
  · intro db
    rfl

mutual
theorem put_replace_eq_merge : ∀ (x : Cxobj) (ys : YangStmt) (db : KV)
    (xk : String), put db x ys .replace xk = put db x ys .merge xk
  | .elmnt n s m cs, ys, db, xk => by
    simp only [put]
    cases hop : xml_find_value (.elmnt n s m cs) "operation" with
    | none =>
      simp only [get_operation, hop]
      cases hE : putNodeKey (.elmnt n s m cs) ys xk with
      | error e => rfl
      | ok xk2 =>
        simp only [putOpSwitch]
        exact putKids_replace_eq_merge cs ys
          (db_set db xk2 (xml_bodyL cs)) xk2
    | some sOp =>
      simp only [get_operation, hop]
  | .bodyNode v, _, _, _ => rfl
  | .attrNode nn v, _, _, _ => rfl

theorem putKids_replace_eq_merge : ∀ (cs : List Cxobj) (ys : YangStmt)
    (db : KV) (xk : String),
    putKids db cs ys .replace xk = putKids db cs ys .merge xk
  | [], _, _, _ => rfl
  | c :: rest, ys, db, xk => by
    cases c with
    | elmnt n s m cs2 =>
      simp only [putKids]
      cases hy : yang_find_syntax ys n with
      | none => rfl
      | some y =>
        dsimp only
        rw [put_replace_eq_merge (.elmnt n s m cs2) y db xk]
        rcases hp : put db (.elmnt n s m cs2) y .merge xk with ⟨err, db2⟩
        cases err with
        | none => exact putKids_replace_eq_merge rest ys db2 xk
        | some e => rfl
    | bodyNode v =>
      simp only [putKids]
      exact putKids_replace_eq_merge rest ys db xk
    | attrNode nn v =>
      simp only [putKids]
      exact putKids_replace_eq_merge rest ys db xk
end

theorem putTop_replace_eq_merge (cs : List Cxobj) (ysp : YangSpec) (db : KV) :
    putTop db cs ysp .replace = putTop db cs ysp .merge := by
  induction cs generalizing db with
  | nil => rfl
  | cons c rest ih =>
    cases c with
    | elmnt n s m cs2 =>
      simp only [putTop]
      cases hy : yang_find_topnode ysp n with
      | none => rfl
      | some y =>
        dsimp only
        rw [put_replace_eq_merge (.elmnt n s m cs2) y db ""]
        rcases hp : put db (.elmnt n s m cs2) y .merge "" with ⟨err, db2⟩
        cases err with
        | none => exact ih db2
        | some e => rfl
    | bodyNode v =>
      simp only [putTop]
      exact ih db
    | attrNode nn v =>
      simp only [putTop]
      exact ih db

/-- Edit tree fixture of the put round-trip seed scenario, the edit tree
a holding leaf b with body 7 under a dummy top. -/
def editAB : Cxobj :=
  .elmnt "top" none false
    [.elmnt "a" none false [.elmnt "b" none false [.bodyNode "7"]]]

/-- C8 amended: put with operation replace first erases the datastore and
then proceeds exactly as a merge on the empty store, so the resulting
key-value state is independent of all prior datastore contents; the
further claim that a subsequent get always yields exactly the written tree
plus defaults holds on the container-and-leaf seed scenario (second
conjunct, with a non-empty prior store) but not for arbitrary trees (see
the counterexample). -/
theorem c8_replace_resets :
    (∀ (db : KV) (xt : Cxobj) (ysp : YangSpec),
      xmldb_put db xt ysp .replace = xmldb_put [] xt ysp .merge) ∧
    (getOk (xmldb_get
        (xmldb_put [("/a/b", some "999"), ("/q", none)] editAB yspecAB
          .replace).2
        none yspecAB)).map xml2str =
      some "<clicon><a><b>7</b></a></clicon>" := by
  constructor
  · intro db xt ysp
    simp only [xmldb_put, if_pos rfl,
      if_neg (by simp : ¬(Op.merge = Op.replace))]
    exact putTop_replace_eq_merge xt.children ysp []
  · rfl

/-- Edit tree fixture writing one composite-key list entry. -/
def editX : Cxobj :=
  .elmnt "top" none false
    [.elmnt "x" none false
      [.elmnt "k1" none false [.bodyNode "1"],
       .elmnt "k2" none false [.bodyNode "aa"],
       .elmnt "v" none false [.bodyNode "hello"]]]

/-- C8 counterexample: after a successful put of a composite-key list
entry with operation replace, the subsequent get does not yield the
written tree plus defaults; it fails entirely, because the emitted list
keys cannot be reassembled (the top-level branch of get does not dispatch
on the list keyword).  So the universally quantified round-trip in the
claim is false even from an erased store. -/
theorem c8_roundtrip_counterexample :
    (xmldb_put [("/prior", none)] editX yspecXtop .replace).1 = none ∧
    (xmldb_put [("/prior", none)] editX yspecXtop .replace).2 =
      [("/x/1/aa", none), ("/x/1/aa/k1", some "1"),
       ("/x/1/aa/k2", some "aa"), ("/x/1/aa/v", some "hello")] ∧
    xmldb_get (xmldb_put [("/prior", none)] editX yspecXtop .replace).2
      none yspecXtop = .error "No yang node found: 1" :=
  ⟨rfl, rfl, rfl⟩

theorem anyMarkL_append (l1 l2 : List Cxobj) :
    anyMarkL (l1 ++ l2) = (anyMarkL l1 || anyMarkL l2) := by
  induction l1 with
  | nil => simp [anyMarkL]
  | cons c rest ih => simp [anyMarkL, ih, Bool.or_assoc]

theorem anyMarkL_set_of (cs : List Cxobj) (i : Nat) (c' : Cxobj)
    (hi : i < cs.length) (hc : containsMarkN c' = true) :
    anyMarkL (cs.set i c') = true := by
  induction cs generalizing i with
  | nil => simp at hi
  | cons d ds ih =>
    cases i with
    | zero => simp [List.set, anyMarkL, hc]
    | succ j =>
      simp only [List.set, anyMarkL]
      have hj : j < ds.length := by simpa using hi
      simp [ih j hj]

theorem anyMarkL_set_mono (cs : List Cxobj) (i : Nat) (c c' : Cxobj)
    (hg : cs.get? i = some c)
    (hmono : containsMarkN c = true → containsMarkN c' = true)
    (h : anyMarkL cs = true) : anyMarkL (cs.set i c') = true := by
  induction cs generalizing i with
  | nil => simp [anyMarkL] at h
  | cons d ds ih =>
    cases i with
    | zero =>
      simp only [List.get?] at hg
      injection hg with hg
      subst hg
      simp only [List.set, anyMarkL] at h ⊢
      rcases Bool.or_eq_true_iff.mp h with hm | ha
      · simp [hmono hm]
      · simp [ha]
    | succ j =>
      simp only [List.get?] at hg
      simp only [List.set, anyMarkL] at h ⊢
      rcases Bool.or_eq_true_iff.mp h with hm | ha
      · simp [hm]
      · simp [ih j hg ha]

theorem markAt_sets (p : List Nat) (t : Cxobj) (h : isElemAt t p = true) :
    containsMarkN (xml_flag_set_at t p) = true := by
  induction p generalizing t with
  | nil =>
    cases t with
    | elmnt n s m cs => simp [xml_flag_set_at, containsMarkN]
    | bodyNode v => simp [isElemAt, getAt, Cxobj.isElem] at h
    | attrNode nn v => simp [isElemAt, getAt, Cxobj.isElem] at h
  | cons i rest ih =>
    cases t with
    | elmnt n s m cs =>
      simp only [isElemAt, getAt] at h
      cases hg : cs.get? i with
      | none => rw [hg] at h; simp at h
      | some c =>
        rw [hg] at h
        have hlt : i < cs.length := (List.get?_eq_some.mp hg).1
        have hc : isElemAt c rest = true := h
        simp only [xml_flag_set_at, hg, containsMarkN]
        simp [anyMarkL_set_of cs i (xml_flag_set_at c rest) hlt (ih c hc)]
    | bodyNode v => simp [isElemAt, getAt] at h
    | attrNode nn v => simp [isElemAt, getAt] at h

theorem flag_set_mono (p : List Nat) (t : Cxobj)
    (h : containsMarkN t = true) :
    containsMarkN (xml_flag_set_at t p) = true := by
  induction p generalizing t with
  | nil =>
    cases t with
    | elmnt n s m cs => simp [xml_flag_set_at, containsMarkN]
    | bodyNode v => simpa [containsMarkN] using h
    | attrNode nn v => simpa [containsMarkN] using h
  | cons i rest ih =>
    cases t with
    | elmnt n s m cs =>
      simp only [xml_flag_set_at]
      cases hg : cs.get? i with
      | none => simpa [containsMarkN] using h
      | some c =>
        simp only [containsMarkN] at h ⊢
        rcases Bool.or_eq_true_iff.mp h with hm | ha
        · simp [hm]
        · simp [anyMarkL_set_mono cs i c (xml_flag_set_at c rest) hg
            (fun hcm => ih c hcm) ha]
    | bodyNode v => simpa [containsMarkN] using h
    | attrNode nn v => simpa [containsMarkN] using h

theorem flag_set_shape (q p : List Nat) (t : Cxobj) :
    isElemAt (xml_flag_set_at t q) p = isElemAt t p := by
  induction q generalizing p t with
  | nil =>
    cases t with
    | elmnt n s m cs => cases p <;> rfl
    | bodyNode v => rfl
    | attrNode nn v => rfl
  | cons j qrest ih =>
    cases t with
    | elmnt n s m cs =>
      simp only [xml_flag_set_at]
      cases hg : cs.get? j with
      | none => rfl
      | some c =>
        cases p with
        | nil => rfl
        | cons i prest =>
          simp only [isElemAt, getAt]
          by_cases hij : i = j
          · subst hij
            rw [List.get?_set_eq_of_lt _ (List.get?_eq_some.mp hg).1, hg]
            have hrec := ih prest c
            simp only [isElemAt] at hrec
            exact hrec
          · rw [List.get?_set_ne _ _ (Ne.symm hij)]
    | bodyNode v => rfl
    | attrNode nn v => rfl

theorem markAll_mono (ps : List (List Nat)) (t : Cxobj)
    (h : containsMarkN t = true) : containsMarkN (markAll t ps) = true := by
  induction ps generalizing t with
  | nil => exact h
  | cons q qs ih => exact ih _ (flag_set_mono q t h)

theorem markAll_sets (ps : List (List Nat)) (t : Cxobj) (p : List Nat)
    (hp : p ∈ ps) (he : isElemAt t p = true) :
    containsMarkN (markAll t ps) = true := by
  induction ps generalizing t with
  | nil => simp at hp
  | cons q qs ih =>
    rcases List.mem_cons.mp hp with hq | hq
    · subst hq
      exact markAll_mono qs _ (markAt_sets p t he)
    · exact ih (xml_flag_set_at t q) hq
        (by rw [flag_set_shape q p t]; exact he)

mutual
theorem pruneSpecOne_mark : ∀ c : Cxobj, containsMarkN c = true →
    anyMarkL (pruneSpecOne c) = true
  | .elmnt n s m cs => fun h => by
    by_cases hm : m = true
    · simp [pruneSpecOne, hm, anyMarkL, containsMarkN]
    · have hmf : m = false := by
        cases m
        · rfl
        · exact absurd rfl hm
      have ha : anyMarkL cs = true := by
        simpa [containsMarkN, hmf] using h
      simp [pruneSpecOne, hmf, ha, anyMarkL, containsMarkN,
        pruneSpecL_mark cs ha]
  | .bodyNode v => fun h => by simp [containsMarkN] at h
  | .attrNode nn v => fun h => by simp [containsMarkN] at h

theorem pruneSpecL_mark : ∀ cs : List Cxobj, anyMarkL cs = true →
    anyMarkL (pruneSpecL cs) = true
  | [] => fun h => by simp [anyMarkL] at h
  | c :: rest => fun h => by
    simp only [pruneSpecL, anyMarkL_append]
    rcases Bool.or_eq_true_iff.mp h with hc | hr
    · simp [pruneSpecOne_mark c hc]
    · simp [pruneSpecL_mark rest hr]
end

theorem prune_mark (t : Cxobj) (h : containsMarkN t = true) :
    containsMarkN (xml_tree_prune_unmarked t) = true := by
  rw [c4_prune_keeps_marked_subtrees]
  cases t with
  | elmnt n s m cs =>
    simp only [pruneSpecN, containsMarkN] at h ⊢
    rcases Bool.or_eq_true_iff.mp h with hm | ha
    · simp [hm]
    · simp [pruneSpecL_mark cs ha]
  | bodyNode v => simpa [containsMarkN] using h
  | attrNode nn v => simpa [containsMarkN] using h

theorem anyMarkL_defaultKids (subs : List YangStmt) (cs : List Cxobj)
    (h : anyMarkL cs = true) : anyMarkL (defaultKids subs cs) = true := by
  induction subs generalizing cs with
  | nil => exact h
  | cons y subs2 ih =>
    simp only [defaultKids]
    split
    · split
      · split
        · exact ih _ (by simp [anyMarkL_append, h])
        · exact ih _ h
      · exact ih _ h
    · exact ih _ h

mutual
theorem xml_defaultN_mark : ∀ (c c2 : Cxobj), xml_defaultN c = .ok c2 →
    containsMarkN c = true → containsMarkN c2 = true
  | .elmnt n s m cs, c2 => fun he h => by
    cases s with
    | none =>
      simp only [xml_defaultN] at he
      exact Except.noConfusion he
    | some ys =>
      simp only [xml_defaultN] at he
      cases hl : xml_defaultL cs with
      | error e =>
        rw [hl] at he
        exact Except.noConfusion he
      | ok cs2 =>
        rw [hl] at he
        dsimp only at he
        have ha : m = true ∨ anyMarkL cs2 = true := by
          rcases Bool.or_eq_true_iff.mp (by simpa [containsMarkN] using h)
            with hm | hcs
          · exact Or.inl hm
          · exact Or.inr (xml_defaultL_mark cs cs2 hl hcs)
        split at he
        · injection he with he2
          subst he2
          rcases ha with hm | hcs2
          · simp [containsMarkN, hm]
          · simp [containsMarkN, anyMarkL_defaultKids ys.substmts cs2 hcs2]
        · injection he with he2
          subst he2
          rcases ha with hm | hcs2
          · simp [containsMarkN, hm]
          · simp [containsMarkN, hcs2]
  | .bodyNode v, c2 => fun he h => by simp [containsMarkN] at h
  | .attrNode nn v, c2 => fun he h => by simp [containsMarkN] at h

theorem xml_defaultL_mark : ∀ (cs cs2 : List Cxobj),
    xml_defaultL cs = .ok cs2 → anyMarkL cs = true → anyMarkL cs2 = true
  | [], cs2 => fun he h => by simp [anyMarkL] at h
  | c :: rest, cs2 => fun he h => by
    simp only [xml_defaultL] at he
    cases hc : xml_defaultN c with
    | error e => rw [hc] at he; exact Except.noConfusion he
    | ok c2 =>
      rw [hc] at he
      cases hr : xml_defaultL rest with
      | error e => rw [hr] at he; exact Except.noConfusion he
      | ok rest2 =>
        rw [hr] at he
        injection he with he2
        subst he2
        rcases Bool.or_eq_true_iff.mp (by simpa [anyMarkL] using h)
          with h1 | h2
        · simp [anyMarkL, xml_defaultN_mark c c2 hc h1]
        · simp [anyMarkL, xml_defaultL_mark rest rest2 hr h2]
end

/-- C5 amended: MARK bits are not transient: xmldb_get never clears them,
so whenever the XPath evaluator returned at least one element handle for
the assembled tree, the tree xmldb_get hands back still contains a node
carrying the MARK flag (marked nodes survive the prune whole, and default
injection and the sanity pass do not touch flags). -/
theorem c5_marks_not_cleared (db : KV) (ys : YangSpec)
    (f : Cxobj → List (List Nat)) (t t1 : Cxobj) (p : List Nat)
    (h1 : assemble ys (db_regexp_pfx db "")
        (Cxobj.elmnt "clicon" none false []) = .ok t1)
    (h2 : p ∈ f t1) (h3 : isElemAt t1 p = true)
    (h4 : xmldb_get db (some f) ys = .ok t) :
    containsMarkN t = true := by
  unfold xmldb_get at h4
  rw [h1] at h4
  dsimp only at h4
  have hmk : containsMarkN (pruneStage (some f) t1) = true := by
    simp only [pruneStage]
    exact prune_mark _ (markAll_sets (f t1) t1 p h2 h3)
  cases hv : pruneStage (some f) t1 with
  | elmnt n s m cs =>
    rw [hv] at h4 hmk
    dsimp only [Cxobj.children, Cxobj.withChildren] at h4
    cases hl : xml_defaultL cs with
    | error e =>
      rw [hl] at h4
      exact Except.noConfusion h4
    | ok cs3 =>
      rw [hl] at h4
      dsimp only at h4
      cases hs : xml_sanityL cs3 with
      | error e =>
        rw [hs] at h4
        exact Except.noConfusion h4
      | ok u =>
        rw [hs] at h4
        dsimp only at h4
        injection h4 with h4e
        subst h4e
        simp only [containsMarkN] at hmk ⊢
        rcases Bool.or_eq_true_iff.mp hmk with hm | ha
        · simp [hm]
        · simp [xml_defaultL_mark cs cs3 hl ha]
  | bodyNode v =>
    rw [hv] at hmk
    simp [containsMarkN] at hmk
  | attrNode nn v =>
    rw [hv] at hmk
    simp [containsMarkN] at hmk

/-- The XPath evaluator model used in the C5 concrete scenario: it always
returns the handle of the first child of the root. -/
def xpathMarkFirst : Cxobj → List (List Nat) := fun _ => [[0]]

/-- The tree xmldb_get returns in the C5 concrete scenario, with the MARK
flag still set on element a. -/
def c5result : Cxobj :=
  .elmnt "clicon" none false
    [.elmnt "a" (some (mkCont "a" [mkLeaf "b"])) true
      [.elmnt "b" (some (mkLeaf "b")) false [.bodyNode "1"]]]

/-- C5 counterexample: with a non-empty xpath whose evaluator marked the a
element, the tree returned by xmldb_get still carries the MARK flag on
that node (visible as the literal true flag of a in the result), so the
claim that no node of the returned tree carries MARK after get returns is
false: no code path of xmldb_get ever clears the flag. -/
theorem c5_mark_not_cleared_counterexample :
    xmldb_get [("/a", none), ("/a/b", some "1")] (some xpathMarkFirst)
      yspecAB = .ok c5result ∧
    (getOk (xmldb_get [("/a", none), ("/a/b", some "1")]
        (some xpathMarkFirst) yspecAB)).map containsMarkN = some true :=
  ⟨rfl, rfl⟩

/-- Witness for the amended C5 theorem on the concrete scenario. -/
theorem c5_marks_not_cleared_witness : containsMarkN c5result = true :=
  c5_marks_not_cleared [("/a", none), ("/a/b", some "1")] yspecAB
    xpathMarkFirst c5result
    (.elmnt "clicon" none false
      [.elmnt "a" (some (mkCont "a" [mkLeaf "b"])) false
        [.elmnt "b" (some (mkLeaf "b")) false [.bodyNode "1"]]])
    [0] (by rfl) (by decide) (by rfl) (by rfl)

mutual
/-- Whether no node of an edit tree carries an operation attribute value,
so that every node keeps the operation xmldb_put was called with. -/
def noAttrN : Cxobj → Bool
  | .elmnt n s m cs =>
    (xml_find_value (.elmnt n s m cs) "operation").isNone && noAttrL cs
  | _ => true

def noAttrL : List Cxobj → Bool
  | [] => true
  | c :: rest => noAttrN c && noAttrL rest
end

/-- Apply a list of key/value writes to the store in order. -/
def applySets (ws : List (String × Option String)) (db : KV) : KV :=
  ws.foldl (fun d p => db_set d p.1 p.2) db

mutual
/-- The write trace of the put walk under the merge operation on an edit
tree without operation attributes: the first error, if any, and the
db_set writes issued up to it.  The trace depends only on the edit tree,
the schema and the accumulated key, not on the database. -/
def putW (xt : Cxobj) (ys : YangStmt) (xk0 : String) :
    Option String × List (String × Option String) :=
  match xt with
  | .elmnt n s m cs =>
    match putNodeKey (.elmnt n s m cs) ys xk0 with
    | .error e => (some e, [])
    | .ok xk =>
      match putKidsW cs ys xk with
      | (err, ws) => (err, (xk, xml_bodyL cs) :: ws)
  | _ => (none, [])

def putKidsW (cs : List Cxobj) (ys : YangStmt) (xk : String) :
    Option String × List (String × Option String) :=
  match cs with
  | [] => (none, [])
  | c :: rest =>
    match c with
    | .elmnt n s m cs2 =>
      match yang_find_syntax ys n with
      | none => (some ("No yang node found: " ++ n), [])
      | some y =>
        match putW (.elmnt n s m cs2) y xk with
        | (some e, ws) => (some e, ws)
        | (none, ws) =>
          match putKidsW rest ys xk with
          | (err, ws2) => (err, ws ++ ws2)
    | _ => putKidsW rest ys xk
end

/-- The write trace of the top-level element loop of xmldb_put under
merge. -/
def putTopW (cs : List Cxobj) (ysp : YangSpec) :
    Option String × List (String × Option String) :=
  match cs with
  | [] => (none, [])
  | c :: rest =>
    match c with
    | .elmnt n s m cs2 =>
      match yang_find_topnode ysp n with
      | none => (some ("No yang node found: " ++ n), [])
      | some y =>
        match putW (.elmnt n s m cs2) y "" with
        | (some e, ws) => (some e, ws)
        | (none, ws) =>
          match putTopW rest ysp with
          | (err, ws2) => (err, ws ++ ws2)
    | _ => putTopW rest ysp

theorem applySets_append (w1 w2 : List (String × Option String)) (db : KV) :
    applySets (w1 ++ w2) db = applySets w2 (applySets w1 db) := by
  simp [applySets, List.foldl_append]

mutual
theorem putW_put : ∀ (x : Cxobj) (ys : YangStmt) (xk0 : String) (db : KV),
    noAttrN x = true →
    put db x ys .merge xk0 =
      ((putW x ys xk0).1, applySets (putW x ys xk0).2 db)
  | .elmnt n s m cs, ys, xk0, db => fun hna => by
    have hna2 := hna
    simp only [noAttrN, Bool.and_eq_true] at hna2
    have hfv : xml_find_value (.elmnt n s m cs) "operation" = none :=
      Option.isNone_iff_eq_none.mp hna2.1
    simp only [put, putW, get_operation, hfv]
    cases hk : putNodeKey (.elmnt n s m cs) ys xk0 with
    | error e => simp [applySets]
    | ok xk =>
      dsimp only [putOpSwitch]
      have hkids := putKidsW_putKids cs ys xk
        (db_set db xk (xml_bodyL cs)) hna2.2
      rcases hw : putKidsW cs ys xk with ⟨err, ws⟩
      rw [hw] at hkids
      rw [hkids]
      simp [applySets]
  | .bodyNode v, ys, xk0, db => fun _ => by simp [put, putW, applySets]
  | .attrNode nn v, ys, xk0, db => fun _ => by simp [put, putW, applySets]

theorem putKidsW_putKids : ∀ (cs : List Cxobj) (ys : YangStmt) (xk : String)
    (db : KV), noAttrL cs = true →
    putKids db cs ys .merge xk =
      ((putKidsW cs ys xk).1, applySets (putKidsW cs ys xk).2 db)
  | [], ys, xk, db => fun _ => by simp [putKids, putKidsW, applySets]
  | c :: rest, ys, xk, db => fun hna => by
    simp only [noAttrL, Bool.and_eq_true] at hna
    cases c with
    | elmnt n s m cs2 =>
      simp only [putKids, putKidsW]
      cases hy : yang_find_syntax ys n with
      | none => simp [applySets]
      | some y =>
        dsimp only
        have hput := putW_put (.elmnt n s m cs2) y xk db hna.1
        rcases hw : putW (.elmnt n s m cs2) y xk with ⟨err, ws⟩
        rw [hw] at hput
        rw [hput]
        cases err with
        | some e => simp
        | none =>
          dsimp only
          have hrest := putKidsW_putKids rest ys xk (applySets ws db) hna.2
          rcases hw2 : putKidsW rest ys xk with ⟨err2, ws2⟩
          rw [hw2] at hrest
          rw [hrest]
          simp [applySets_append]
    | bodyNode v =>
      simp only [putKids, putKidsW]
      exact putKidsW_putKids rest ys xk db hna.2
    | attrNode nn v =>
      simp only [putKids, putKidsW]
      exact putKidsW_putKids rest ys xk db hna.2
end

theorem putTopW_putTop (cs : List Cxobj) (ysp : YangSpec) (db : KV)
    (hna : noAttrL cs = true) :
    putTop db cs ysp .merge =
      ((putTopW cs ysp).1, applySets (putTopW cs ysp).2 db) := by
  induction cs generalizing db with
  | nil => simp [putTop, putTopW, applySets]
  | cons c rest ih =>
    simp only [noAttrL, Bool.and_eq_true] at hna
    cases c with
    | elmnt n s m cs2 =>
      simp only [putTop, putTopW]
      cases hy : yang_find_topnode ysp n with
      | none => simp [applySets]
      | some y =>
        dsimp only
        have hput := putW_put (.elmnt n s m cs2) y "" db hna.1
        rcases hw : putW (.elmnt n s m cs2) y "" with ⟨err, ws⟩
        rw [hw] at hput
        rw [hput]
        cases err with
        | some e => simp
        | none =>
          dsimp only
          have hrest := ih (applySets ws db) hna.2
          rcases hw2 : putTopW rest ysp with ⟨err2, ws2⟩
          rw [hw2] at hrest
          rw [hrest]
          simp [applySets_append]
    | bodyNode v =>
      simp only [putTop, putTopW]
      exact ih db hna.2
    | attrNode nn v =>
      simp only [putTop, putTopW]
      exact ih db hna.2

theorem kvKeys_db_set_mem (db : KV) (k2 k : String) (v : Option String) :
    k ∈ kvKeys (db_set db k2 v) ↔ k ∈ kvKeys db ∨ k = k2 := by
  induction db with
  | nil => simp [db_set, kvKeys]
  | cons p rest ih =>
    obtain ⟨k3, v3⟩ := p
    by_cases h : k3 = k2
    · subst h
      simp [db_set, kvKeys]
      tauto
    · simp only [db_set, if_neg h, kvKeys, List.map_cons, List.mem_cons]
      rw [show kvKeys (db_set rest k2 v) =
        (db_set rest k2 v).map (fun p => p.1) from rfl] at ih
      rw [show kvKeys rest = rest.map (fun p => p.1) from rfl] at ih
      rw [ih]
      tauto

theorem applySets_mem (ws : List (String × Option String)) (db : KV)
    (k : String) :
    k ∈ kvKeys (applySets ws db) ↔
      k ∈ kvKeys db ∨ k ∈ ws.map (fun p => p.1) := by
  induction ws generalizing db with
  | nil => simp [applySets]
  | cons p ws2 ih =>
    obtain ⟨k2, v2⟩ := p
    show k ∈ kvKeys (applySets ws2 (db_set db k2 v2)) ↔ _
    rw [ih, kvKeys_db_set_mem]
    simp only [List.map_cons, List.mem_cons]
    tauto

/-- Single-key list fixture nested under a container. -/
def yspecTX1 : YangSpec :=
  [mkMod [mkCont "t" [mkList "x" "k1" [mkLeaf "k1", mkLeaf "v"]]]]

/-- C6 amended: a second identical put with merge never grows the set of
persisted keys (for any edit tree without operation attributes, whether or
not the walk succeeds, the key set after running the walk twice equals the
key set after running it once), and re-integrating an identical pair into
the assembled tree is a no-op for leaf and single-key-list pairs; for
leaf-list pairs it is not (see the counterexample): every repetition
appends a duplicate sibling element. -/
theorem c6_merge_put_idempotent :
    (∀ (db : KV) (xt : Cxobj) (ysp : YangSpec) (k : String),
      noAttrL xt.children = true →
      (k ∈ kvKeys (xmldb_put (xmldb_put db xt ysp .merge).2 xt ysp
          .merge).2 ↔
       k ∈ kvKeys (xmldb_put db xt ysp .merge).2)) ∧
    ((get yspecAB "/a/b" (some "7") rootClicon).bind
        (get yspecAB "/a/b" (some "7")) =
      get yspecAB "/a/b" (some "7") rootClicon) ∧
    ((get yspecTX1 "/t/x/1" none rootClicon).bind
        (get yspecTX1 "/t/x/1" none) =
      get yspecTX1 "/t/x/1" none rootClicon) := by
  refine ⟨fun db xt ysp k hna => ?_, rfl, rfl⟩
  have h1 : xmldb_put db xt ysp .merge =
      ((putTopW xt.children ysp).1,
       applySets (putTopW xt.children ysp).2 db) := by
    simp only [xmldb_put, if_neg (by simp : ¬(Op.merge = Op.replace))]
    exact putTopW_putTop xt.children ysp db hna
  have h2 : xmldb_put (xmldb_put db xt ysp .merge).2 xt ysp .merge =
      ((putTopW xt.children ysp).1,
       applySets (putTopW xt.children ysp).2
         (xmldb_put db xt ysp .merge).2) := by
    simp only [xmldb_put, if_neg (by simp : ¬(Op.merge = Op.replace))]
    exact putTopW_putTop xt.children ysp _ hna
  rw [h2, h1]
  simp only [applySets_mem]
  tauto

/-- Witness for the amended C6 theorem: the key /a/b after two identical
merge puts of the seed edit tree is present exactly when it is present
after one. -/
theorem c6_merge_put_idempotent_witness :
    "/a/b" ∈ kvKeys (xmldb_put (xmldb_put [] editAB yspecAB .merge).2
        editAB yspecAB .merge).2 ↔
      "/a/b" ∈ kvKeys (xmldb_put [] editAB yspecAB .merge).2 :=
  c6_merge_put_idempotent.1 [] editAB yspecAB "/a/b" (by decide)

/-- C6 counterexample: integrating the same leaf-list pair twice is not
idempotent: the second integration appends a second ll sibling, because
the existence test of the leaf-list arm looks for a child whose name is
the value, while the value actually lives in a body child named body, so
it never finds the element created by the first integration. -/
theorem c6_leaflist_not_idempotent :
    (getOk ((get yspecCll "/c/ll/red" (some "red") rootClicon).bind
        (get yspecCll "/c/ll/red" (some "red")))).map xml2str =
      some "<clicon><c><ll>red</ll><ll>red</ll></c></clicon>" ∧
    (getOk (get yspecCll "/c/ll/red" (some "red") rootClicon)).map xml2str =
      some "<clicon><c><ll>red</ll></c></clicon>" ∧
    (get yspecCll "/c/ll/red" (some "red") rootClicon).bind
        (get yspecCll "/c/ll/red" (some "red")) ≠
      get yspecCll "/c/ll/red" (some "red") rootClicon :=
  ⟨rfl, rfl, fun h =>
    absurd (congrArg (fun r => (getOk r).map xml2str) h) (by decide)⟩
